import Mathlib

/-!
Verification development for the Vernala backend translation query engine.

The SQLite-backed query layer is shallowly embedded: a database is a pair of
relations (`words`, `translations`), and the SQL queries that the Python code
builds in `src/db/repositories/translation_repository.py`,
`src/db/database.py`, `src/db/migrate.py` and the FastAPI handler in
`src/app/routes/translate_router.py` are translated into executable Lean
functions over that state.
-/

namespace Vernala

/-- Model of ASCII case folding: the uppercase letters A-Z (code points
65-90) map to their lowercase counterparts, every other character is left
unchanged.  This is both the case folding SQLite's `LIKE` applies to its
operands (SQLite folds only ASCII by default) and the model used for
Python's `str.lower()` (the Python sources lowercase query words and
normalized forms; the embedding models the ASCII fragment of that mapping,
which is all the claims depend on). -/
def lowerChar (c : Char) : Char :=
  if 65 ≤ c.toNat ∧ c.toNat ≤ 90 then Char.ofNat (c.toNat + 32) else c

/-- Model of Python's `str.lower()`, applied characterwise. -/
def pyLower (s : String) : String :=
  ⟨s.data.map lowerChar⟩

/-- All non-empty suffixes of a character list, followed by the empty
suffix.  Used to give a structurally recursive semantics to the `%`
wildcard of SQLite's `LIKE`. -/
def suffixesOf : List Char → List (List Char)
  | [] => [[]]
  | c :: ss => (c :: ss) :: suffixesOf ss

/-- Semantics of SQLite's `LIKE` operator on character lists: `%` matches
any (possibly empty) sequence, `_` matches exactly one character, and any
other pattern character matches a single character up to ASCII case
folding.  There is no `ESCAPE` clause in the queries under study, so `%`
and `_` are always wildcards. -/
def likeChars : List Char → List Char → Bool
  | [], s => s.isEmpty
  | p :: ps, s =>
    if p = '%' then (suffixesOf s).any fun t => likeChars ps t
    else if p = '_' then
      match s with
      | [] => false
      | _ :: ss => likeChars ps ss
    else
      match s with
      | [] => false
      | c :: ss => (lowerChar p == lowerChar c) && likeChars ps ss

/-- SQLite's `column LIKE pattern` on strings. -/
def sqliteLike (pattern s : String) : Bool :=
  likeChars pattern.data s.data

/-- Boolean test that a character list starts with another one (literal
comparison, no wildcards).  This is the reading the specification gives to
`match=prefix`. -/
def startsWithL : List Char → List Char → Bool
  | [], _ => true
  | _ :: _, [] => false
  | a :: as, b :: bs => (a == b) && startsWithL as bs

/-- Boolean test that a character list occurs as a contiguous substring of
another one.  This is the reading the specification gives to
`match=contains`. -/
def substrOf (w : List Char) (s : List Char) : Bool :=
  (suffixesOf s).any fun t => startsWithL w t

/-- Lexicographic comparison of character lists by Unicode code point,
the order SQLite's default BINARY collation induces on UTF-8 text. -/
def cpLe : List Char → List Char → Bool
  | [], _ => true
  | _ :: _, [] => false
  | a :: as, b :: bs =>
    if a.toNat < b.toNat then true
    else if b.toNat < a.toNat then false
    else cpLe as bs

/-- A row of the `words` table created by `DatabaseMigrator.create_schema`:
`id`, surface form `word`, lowercased `word_normalized`, `language_code`,
and the optional `webonary_link` (the `created_at` timestamp column is
never read by any query under study and is omitted). -/
structure WordRow where
  id : Nat
  word : String
  word_normalized : String
  language_code : String
  webonary_link : Option String
deriving Repr, DecidableEq

/-- A row of the `translations` table: a directed edge between word ids. -/
structure EdgeRow where
  source_word_id : Nat
  target_word_id : Nat
deriving Repr, DecidableEq

/-- The database state: the two relations of the schema. -/
structure DB where
  words : List WordRow
  translations : List EdgeRow
deriving Repr, DecidableEq

/-- One translation result record, as assembled by `_rows_to_dicts`. -/
structure ResultRow where
  source_word : String
  source_language : String
  target_word : String
  target_language : String
  webonary_link : Option String
deriving Repr, DecidableEq

/-- The word-matching WHERE condition produced by
`TranslationRepository._build_word_condition`: either an equality test on
`word_normalized` (`exact`) or a `LIKE` test (`prefix`/`contains`),
together with its parameter value. -/
structure WordCond where
  isLike : Bool
  param : String
deriving Repr, DecidableEq

/-- Evaluate a word condition against a `word_normalized` column value. -/
def evalWordCond (c : WordCond) (s : String) : Bool :=
  if c.isLike then sqliteLike c.param s else s == c.param

/-- Embedding of `TranslationRepository._build_word_condition`: dispatch on
the match type, building the condition and its parameter, or raising
`ValueError` for any other match value. -/
def build_word_condition (word_normalized m : String) : Except String WordCond :=
  if m = "exact" then Except.ok ⟨false, word_normalized⟩
  else if m = "prefix" then Except.ok ⟨true, word_normalized ++ "%"⟩
  else if m = "contains" then Except.ok ⟨true, "%" ++ word_normalized ++ "%"⟩
  else Except.error ("Invalid match type: " ++ m ++ ". Must be \x27exact\x27, \x27prefix\x27, or \x27contains\x27")

/-- Python truthiness of an optional string, as used by the
`if target_lang:` test in `_build_target_condition` (and by
`TranslationQueryBuilder._build_params`): `None` and the empty string are
falsy, every other string is truthy. -/
def pyTruthy : Option String → Bool
  | none => false
  | some s => !s.isEmpty

/-- The optional target-language restriction of `_build_target_condition`:
when `target_lang` is truthy the clause `AND target.language_code = ?` is
added, otherwise no restriction applies. -/
def targetOkB (target_lang : Option String) (target : WordRow) : Bool :=
  if pyTruthy target_lang then target.language_code == target_lang.getD "" else true

/-- Row semantics of the forward SQL query built by
`TranslationRepository._build_query` (identical text in
`database.query_translation`): join `words source`, `translations t`,
`words target` on `source.id = t.source_word_id` and
`t.target_word_id = target.id`, filter by source language, word condition
and optional target language, and surface `target.webonary_link`. -/
def forwardRows (db : DB) (source_lang : String) (wordPred : String → Bool)
    (target_lang : Option String) : List ResultRow :=
  db.words.flatMap fun source =>
    db.translations.flatMap fun t =>
      db.words.filterMap fun target =>
        if (source.id == t.source_word_id) && (target.id == t.target_word_id)
            && (source.language_code == source_lang)
            && wordPred source.word_normalized
            && targetOkB target_lang target then
          some { source_word := source.word
               , source_language := source.language_code
               , target_word := target.word
               , target_language := target.language_code
               , webonary_link := target.webonary_link }
        else none

/-- Row semantics of the reverse SQL query built by
`TranslationRepository._build_query` (identical text in
`database.query_reverse_translation`): the join is swapped
(`source.id = t.target_word_id`, `t.source_word_id = target.id`) and the
link surfaced is `source.webonary_link`. -/
def reverseRows (db : DB) (source_lang : String) (wordPred : String → Bool)
    (target_lang : Option String) : List ResultRow :=
  db.words.flatMap fun source =>
    db.translations.flatMap fun t =>
      db.words.filterMap fun target =>
        if (source.id == t.target_word_id) && (target.id == t.source_word_id)
            && (source.language_code == source_lang)
            && wordPred source.word_normalized
            && targetOkB target_lang target then
          some { source_word := source.word
               , source_language := source.language_code
               , target_word := target.word
               , target_language := target.language_code
               , webonary_link := source.webonary_link }
        else none

/-- The ordering relation of the `ORDER BY target.word` clause: code-point
lexicographic comparison of the target-role surface forms (SQLite BINARY
collation on UTF-8 text). -/
def rowLe (a b : ResultRow) : Prop :=
  cpLe a.target_word.data b.target_word.data = true

instance : DecidableRel rowLe := fun a b =>
  inferInstanceAs (Decidable (_ = true))

/-- Semantics of `ORDER BY target.word`: sort the joined rows by the
target-role surface form (any sorted permutation models SQLite, which
leaves the relative order of ties unspecified; insertion sort is used as
the deterministic representative). -/
def sortRows (rows : List ResultRow) : List ResultRow :=
  List.insertionSort rowLe rows

/-- Embedding of `TranslationRepository.query_translations`: lowercase the
query word, build the word condition (raising `ValueError` on an invalid
match type before the database is touched), pick the forward or reverse
query shape from `direction`, then execute: join, filter, `ORDER BY
target.word`, `LIMIT limit`. -/
def query_translations (db : DB) (source_lang word : String)
    (target_lang : Option String) (m : String) (limit : Nat)
    (direction : String) : Except String (List ResultRow) :=
  let word_normalized := pyLower word
  match build_word_condition word_normalized m with
  | Except.error e => Except.error e
  | Except.ok cond =>
      let rows :=
        if direction = "forward" then
          forwardRows db source_lang (evalWordCond cond) target_lang
        else
          reverseRows db source_lang (evalWordCond cond) target_lang
      Except.ok ((sortRows rows).take limit)

/-- Embedding of the ad-hoc `database.query_translation` (forward only):
the same lowercasing, match dispatch (with its own, shorter `ValueError`
message), forward join, ordering and limit. -/
def query_translation (db : DB) (source_lang word : String)
    (target_lang : Option String) (m : String) (limit : Nat) :
    Except String (List ResultRow) :=
  let word_normalized := pyLower word
  let wc : Except String WordCond :=
    if m = "exact" then Except.ok ⟨false, word_normalized⟩
    else if m = "prefix" then Except.ok ⟨true, word_normalized ++ "%"⟩
    else if m = "contains" then Except.ok ⟨true, "%" ++ word_normalized ++ "%"⟩
    else Except.error ("Invalid match type: " ++ m)
  match wc with
  | Except.error e => Except.error e
  | Except.ok cond =>
      Except.ok ((sortRows (forwardRows db source_lang (evalWordCond cond) target_lang)).take limit)

/-- Embedding of the ad-hoc `database.query_reverse_translation`: identical
to `query_translation` except that the reverse join shape is used. -/
def query_reverse_translation (db : DB) (source_lang word : String)
    (target_lang : Option String) (m : String) (limit : Nat) :
    Except String (List ResultRow) :=
  let word_normalized := pyLower word
  let wc : Except String WordCond :=
    if m = "exact" then Except.ok ⟨false, word_normalized⟩
    else if m = "prefix" then Except.ok ⟨true, word_normalized ++ "%"⟩
    else if m = "contains" then Except.ok ⟨true, "%" ++ word_normalized ++ "%"⟩
    else Except.error ("Invalid match type: " ++ m)
  match wc with
  | Except.error e => Except.error e
  | Except.ok cond =>
      Except.ok ((sortRows (reverseRows db source_lang (evalWordCond cond) target_lang)).take limit)

/-- Migration statistics kept by `DatabaseMigrator` (the fields touched by
`get_or_create_word`). -/
structure MigStats where
  duplicate_words_skipped : Nat
  words_per_language : String → Nat

/-- State visible to `DatabaseMigrator.get_or_create_word`: the `words`
relation, the next `AUTOINCREMENT` id, and the migration statistics. -/
structure MigState where
  words : List WordRow
  nextId : Nat
  stats : MigStats

/-- SQL equality with NULL handling as written in the lookup of
`get_or_create_word`: `webonary_link = ? OR (webonary_link IS NULL AND ?
IS NULL)`.  `NULL = x` is never true in SQL, so the disjunction holds
exactly when both sides are the same non-NULL string or both are NULL. -/
def sqlNullEq : Option String → Option String → Bool
  | some x, some y => x == y
  | none, none => true
  | _, _ => false

/-- Embedding of `DatabaseMigrator.get_or_create_word`: look up an existing
row matching `(word, language_code, webonary_link)` (with NULL-aware link
equality); if found, bump the duplicate counter and return its id,
otherwise insert a fresh row (with `word_normalized = word.lower()` and the
next autoincrement id) and return the new id. -/
def get_or_create_word (st : MigState) (word language_code : String)
    (webonary_link : Option String) : Nat × MigState :=
  let word_normalized := pyLower word
  match st.words.find? (fun r =>
      (r.word == word) && (r.language_code == language_code)
        && sqlNullEq r.webonary_link webonary_link) with
  | some r =>
      (r.id,
        { st with stats :=
            { st.stats with duplicate_words_skipped := st.stats.duplicate_words_skipped + 1 } })
  | none =>
      let row : WordRow :=
        { id := st.nextId, word := word, word_normalized := word_normalized
        , language_code := language_code, webonary_link := webonary_link }
      (st.nextId,
        { words := st.words ++ [row]
        , nextId := st.nextId + 1
        , stats :=
            { st.stats with words_per_language := fun lc =>
                if lc = language_code then st.stats.words_per_language lc + 1
                else st.stats.words_per_language lc } })

/-- The `query` block of a translate response (`app.models.QueryInfo`): the
echoed request parameters.  The Python field `match` is a reserved word in
Lean and is embedded as `matchType`; note the model has no `limit` field. -/
structure QueryInfo where
  source : String
  target : Option String
  word : String
  matchType : String
deriving Repr, DecidableEq

/-- The body of a successful translate response
(`app.models.TranslateResponse`). -/
structure TranslateResponse where
  query : QueryInfo
  results : List ResultRow
  count : Nat
deriving Repr, DecidableEq

/-- Comparison used to model Python's `sorted` on strings: code-point
lexicographic order. -/
def strLe (a b : String) : Prop :=
  cpLe a.data b.data = true

instance : DecidableRel strLe := fun a b =>
  inferInstanceAs (Decidable (_ = true))

/-- Model of `", ".join(sorted(codes))` in the router's error messages. -/
def joinSorted (codes : List String) : String :=
  String.intercalate ", " (List.insertionSort strLe codes)

/-- Embedding of the `translate` route handler: validate the source and
(truthy) target language codes against the registry-derived list, derive
the direction (`reverse` iff the source is not English/French), run the
repository query, and shape the response: the echoed `QueryInfo`, the
result records and their count. -/
def translate (db : DB) (valid_languages : List String) (source word : String)
    (target : Option String) (m : String) (limit : Nat) :
    Except String TranslateResponse :=
  if source ∉ valid_languages then
    Except.error ("Unsupported source language: " ++ source
      ++ ". Valid codes: " ++ joinSorted valid_languages)
  else if pyTruthy target = true ∧ target.getD "" ∉ valid_languages then
    Except.error ("Unsupported target language: " ++ target.getD ""
      ++ ". Valid codes: " ++ joinSorted valid_languages)
  else
    let direction := if source ∉ ["en", "fr"] then "reverse" else "forward"
    match query_translations db source word target m limit direction with
    | Except.error e => Except.error ("Database error: " ++ e)
    | Except.ok results =>
        Except.ok
          { query := { source := source, target := target, word := word, matchType := m }
          , results := results
          , count := results.length }

/-! ### Character and lowercasing lemmas -/

theorem toNat_ofNat_small {n : Nat} (h : n < 55296) : (Char.ofNat n).toNat = n := by
  have hv : n.isValidChar := Or.inl h
  rw [Char.ofNat, dif_pos hv]
  simp [Char.ofNatAux, Char.toNat, UInt32.toNat, BitVec.toNat_ofNatLt]

theorem lowerChar_not_upper (c : Char) :
    ¬ (65 ≤ (lowerChar c).toNat ∧ (lowerChar c).toNat ≤ 90) := by
  unfold lowerChar
  by_cases h : 65 ≤ c.toNat ∧ c.toNat ≤ 90
  · rw [if_pos h, toNat_ofNat_small (by omega)]
    omega
  · rw [if_neg h]
    omega

theorem lowerChar_idem (c : Char) : lowerChar (lowerChar c) = lowerChar c := by
  have h := lowerChar_not_upper c
  unfold lowerChar
  rw [if_neg]
  exact h

theorem lowerChar_toNat_mem (c : Char) :
    lowerChar c = c ∨ (97 ≤ (lowerChar c).toNat ∧ (lowerChar c).toNat ≤ 122) := by
  unfold lowerChar
  by_cases h : 65 ≤ c.toNat ∧ c.toNat ≤ 90
  · rw [if_pos h, toNat_ofNat_small (by omega)]
    right
    omega
  · rw [if_neg h]
    left
    rfl

theorem lowerChar_ne_pct {c : Char} (h : c ≠ '%') : lowerChar c ≠ '%' := by
  rcases lowerChar_toNat_mem c with h' | h'
  · rw [h']
    exact h
  · intro hc
    rw [hc] at h'
    simp [Char.toNat, UInt32.size] at h'

theorem lowerChar_ne_uscore {c : Char} (h : c ≠ '_') : lowerChar c ≠ '_' := by
  rcases lowerChar_toNat_mem c with h' | h'
  · rw [h']
    exact h
  · intro hc
    rw [hc] at h'
    simp [Char.toNat, UInt32.size] at h'

theorem pyLower_data (s : String) : (pyLower s).data = s.data.map lowerChar := rfl

theorem pyLower_idem (s : String) : pyLower (pyLower s) = pyLower s := by
  unfold pyLower
  apply congrArg String.mk
  rw [List.map_map]
  apply List.map_congr_left
  intro c _
  exact lowerChar_idem c

theorem pyLower_clean (s : String) : ∀ c ∈ (pyLower s).data, lowerChar c = c := by
  intro c hc
  rw [pyLower_data] at hc
  rcases List.mem_map.1 hc with ⟨x, _, hx⟩
  rw [← hx]
  exact lowerChar_idem x

/-! ### Code-point order lemmas -/

theorem cpLe_cons {x y : Char} {xs ys : List Char} :
    cpLe (x :: xs) (y :: ys) = true ↔
      x.toNat < y.toNat ∨ (x.toNat = y.toNat ∧ cpLe xs ys = true) := by
  simp only [cpLe]
  split_ifs with h1 h2
  · simp
    omega
  · simp
    omega
  · constructor
    · intro h
      exact Or.inr ⟨by omega, h⟩
    · rintro (h | ⟨h, h'⟩)
      · omega
      · exact h'

theorem cpLe_total : ∀ a b, cpLe a b = true ∨ cpLe b a = true := by
  intro a
  induction a with
  | nil => intro b; left; rfl
  | cons x xs ih =>
      intro b
      cases b with
      | nil => right; rfl
      | cons y ys =>
          rcases Nat.lt_trichotomy x.toNat y.toNat with h | h | h
          · left
            exact cpLe_cons.2 (Or.inl h)
          · rcases ih ys with h' | h'
            · left
              exact cpLe_cons.2 (Or.inr ⟨h, h'⟩)
            · right
              exact cpLe_cons.2 (Or.inr ⟨h.symm, h'⟩)
          · right
            exact cpLe_cons.2 (Or.inl h)

theorem cpLe_trans : ∀ a b c, cpLe a b = true → cpLe b c = true → cpLe a c = true := by
  intro a
  induction a with
  | nil => intro b c _ _; rfl
  | cons x xs ih =>
      intro b c h1 h2
      cases b with
      | nil => simp [cpLe] at h1
      | cons y ys =>
          cases c with
          | nil => simp [cpLe] at h2
          | cons z zs =>
              rcases cpLe_cons.1 h1 with hxy | ⟨hxy, hxy'⟩ <;>
                rcases cpLe_cons.1 h2 with hyz | ⟨hyz, hyz'⟩
              · exact cpLe_cons.2 (Or.inl (by omega))
              · exact cpLe_cons.2 (Or.inl (by omega))
              · exact cpLe_cons.2 (Or.inl (by omega))
              · exact cpLe_cons.2 (Or.inr ⟨by omega, ih ys zs hxy' hyz'⟩)

instance : IsTotal ResultRow rowLe :=
  ⟨fun a b => cpLe_total a.target_word.data b.target_word.data⟩

instance : IsTrans ResultRow rowLe :=
  ⟨fun a b c => cpLe_trans a.target_word.data b.target_word.data c.target_word.data⟩

instance : IsTotal String strLe :=
  ⟨fun a b => cpLe_total a.data b.data⟩

instance : IsTrans String strLe :=
  ⟨fun a b c => cpLe_trans a.data b.data c.data⟩

/-! ### LIKE-pattern lemmas -/

theorem nil_mem_suffixesOf (s : List Char) : [] ∈ suffixesOf s := by
  induction s with
  | nil => simp [suffixesOf]
  | cons c ss ih => simp [suffixesOf, ih]

theorem mem_of_mem_suffixesOf {t s : List Char} (h : t ∈ suffixesOf s) :
    ∀ c ∈ t, c ∈ s := by
  induction s with
  | nil =>
      simp [suffixesOf] at h
      simp [h]
  | cons x ss ih =>
      simp only [suffixesOf, List.mem_cons] at h
      rcases h with h | h
      · simp [h]
      · intro c hc
        exact List.mem_cons_of_mem x (ih h c hc)

theorem anyCongr {α : Type} {l : List α} {f g : α → Bool}
    (h : ∀ a ∈ l, f a = g a) : l.any f = l.any g := by
  induction l with
  | nil => rfl
  | cons x xs ih =>
      simp only [List.any_cons]
      rw [h x (List.mem_cons_self x xs), ih (fun a ha => h a (List.mem_cons_of_mem x ha))]

theorem likeChars_pct (s : List Char) : likeChars ['%'] s = true := by
  simp only [likeChars]
  rw [if_pos trivial]
  apply List.any_eq_true.2
  exact ⟨[], nil_mem_suffixesOf s, rfl⟩

theorem likeChars_append_pct :
    ∀ (w s : List Char), (∀ c ∈ w, lowerChar c = c ∧ c ≠ '%' ∧ c ≠ '_') →
      (∀ c ∈ s, lowerChar c = c) →
      likeChars (w ++ ['%']) s = startsWithL w s := by
  intro w
  induction w with
  | nil =>
      intro s _ _
      rw [List.nil_append, likeChars_pct]
      rfl
  | cons p ps ih =>
      intro s hw hs
      obtain ⟨hp, hp1, hp2⟩ := hw p (List.mem_cons_self p ps)
      rw [List.cons_append]
      simp only [likeChars, if_neg hp1, if_neg hp2]
      cases s with
      | nil => rfl
      | cons c ss =>
          obtain hc := hs c (List.mem_cons_self c ss)
          simp only [startsWithL, hp, hc]
          rw [ih ss (fun d hd => hw d (List.mem_cons_of_mem p hd))
              (fun d hd => hs d (List.mem_cons_of_mem c hd))]

theorem likeChars_pct_append_pct (w s : List Char)
    (hw : ∀ c ∈ w, lowerChar c = c ∧ c ≠ '%' ∧ c ≠ '_')
    (hs : ∀ c ∈ s, lowerChar c = c) :
    likeChars ('%' :: (w ++ ['%'])) s = substrOf w s := by
  simp only [likeChars, substrOf]
  rw [if_pos trivial]
  apply anyCongr
  intro t ht
  exact likeChars_append_pct w t hw
    (fun c hc => hs c (mem_of_mem_suffixesOf ht c hc))

/-! ### Join congruence and target-condition lemmas -/

theorem flatMapCongr {α β : Type} {l : List α} {f g : α → List β}
    (h : ∀ a ∈ l, f a = g a) : l.flatMap f = l.flatMap g := by
  induction l with
  | nil => rfl
  | cons x xs ih =>
      simp only [List.flatMap_cons]
      rw [h x (List.mem_cons_self x xs), ih fun a ha => h a (List.mem_cons_of_mem x ha)]

theorem forwardRows_congr {db : DB} {sl : String} (p q : String → Bool)
    {tl : Option String} (h : ∀ r ∈ db.words, p r.word_normalized = q r.word_normalized) :
    forwardRows db sl p tl = forwardRows db sl q tl := by
  unfold forwardRows
  apply flatMapCongr
  intro source hs
  simp only [h source hs]

theorem reverseRows_congr {db : DB} {sl : String} (p q : String → Bool)
    {tl : Option String} (h : ∀ r ∈ db.words, p r.word_normalized = q r.word_normalized) :
    reverseRows db sl p tl = reverseRows db sl q tl := by
  unfold reverseRows
  apply flatMapCongr
  intro source hs
  simp only [h source hs]

theorem targetOkB_none_of_empty (t : WordRow) : targetOkB (some "") t = targetOkB none t := rfl

theorem targetOkB_self {x : String} {t : WordRow} (h : t.language_code = x) :
    targetOkB (some x) t = true := by
  unfold targetOkB
  split_ifs with h'
  · simp [h]
  · rfl

/-- C10.  At the query-engine interface an empty-string `target_lang` is
treated identically to an absent (`None`) one: the presence test is Python
truthiness, so with `target_lang = ""` no target-language restriction is
applied and the query result is the same as with `target_lang = None`, for
every database, word, match mode, limit and direction. -/
theorem c10_empty_target_lang_is_absent (db : DB) (source_lang word : String)
    (m : String) (limit : Nat) (direction : String) :
    query_translations db source_lang word (some "") m limit direction
      = query_translations db source_lang word none m limit direction := by
  unfold query_translations
  dsimp only
  cases hbc : build_word_condition (pyLower word) m with
  | error e => rfl
  | ok cond =>
      dsimp only
      have hf : forwardRows db source_lang (evalWordCond cond) (some "")
          = forwardRows db source_lang (evalWordCond cond) none := by
        unfold forwardRows
        simp only [targetOkB_none_of_empty]
      have hr : reverseRows db source_lang (evalWordCond cond) (some "")
          = reverseRows db source_lang (evalWordCond cond) none := by
        unfold reverseRows
        simp only [targetOkB_none_of_empty]
      rw [hf, hr]

/-- C5.  The consolidated repository query (`query_translations` with the
given direction) computes the same result list as the corresponding ad-hoc
query function of `database.py` (`query_translation` forward,
`query_reverse_translation` reverse), on every input tuple; the two
implementations differ only in the text of the invalid-match error
message, so the comparison is on the returned result lists
(`Except.toOption`). -/
theorem c5_repository_equals_adhoc (db : DB) (source_lang word : String)
    (target_lang : Option String) (m : String) (limit : Nat) :
    (query_translations db source_lang word target_lang m limit "forward").toOption
      = (query_translation db source_lang word target_lang m limit).toOption
    ∧ (query_translations db source_lang word target_lang m limit "reverse").toOption
      = (query_reverse_translation db source_lang word target_lang m limit).toOption := by
  constructor <;>
  · simp only [query_translations, query_translation, query_reverse_translation,
      build_word_condition]
    by_cases h1 : m = "exact" <;> by_cases h2 : m = "prefix" <;>
      by_cases h3 : m = "contains" <;>
      simp [h1, h2, h3, Except.toOption]

/-- C6.  Case insensitivity: for a stored word `W` and any casing variant
`w` of its surface form (any string with the same lowercasing), an exact
query for `w` returns the identical result list as the canonical lowercase
query for `pyLower W.word`, because the engine lowercases the query word
before matching and lowercasing is idempotent. -/
theorem c6_case_insensitive (db : DB) (W : WordRow) (hW : W ∈ db.words)
    (w : String) (hvar : pyLower w = pyLower W.word)
    (source_lang : String) (target_lang : Option String) (limit : Nat)
    (direction : String) :
    query_translations db source_lang w target_lang "exact" limit direction
      = query_translations db source_lang (pyLower W.word) target_lang "exact" limit direction := by
  unfold query_translations
  rw [hvar, pyLower_idem]

/-- Witness for C6 at a concrete database: querying `ABANDON` equals
querying the canonical lowercase `abandon`. -/
theorem c6_witness :
    query_translations
        ⟨[⟨1, "Abandon", "abandon", "en", none⟩, ⟨2, "nye", "nye", "nnh", some "L1"⟩],
         [⟨1, 2⟩]⟩
        "en" "ABANDON" (some "nnh") "exact" 10 "forward"
      = query_translations
        ⟨[⟨1, "Abandon", "abandon", "en", none⟩, ⟨2, "nye", "nye", "nnh", some "L1"⟩],
         [⟨1, 2⟩]⟩
        "en" (pyLower "Abandon") (some "nnh") "exact" 10 "forward" :=
  c6_case_insensitive
    ⟨[⟨1, "Abandon", "abandon", "en", none⟩, ⟨2, "nye", "nye", "nnh", some "L1"⟩],
     [⟨1, 2⟩]⟩
    ⟨1, "Abandon", "abandon", "en", none⟩ (by decide) "ABANDON" (by decide)
    "en" (some "nnh") 10 "forward"

theorem sqlNullEq_refl (a : Option String) : sqlNullEq a a = true := by
  cases a <;> simp [sqlNullEq]

/-- C7.  `get_or_create_word` is idempotent: calling it a second time with
identical arguments (surface form, language code, optional link — compared
with NULL-aware equality) returns the same word id as the first call and
leaves the `words` relation and the autoincrement counter unchanged. -/
theorem c7_get_or_create_word_idempotent (st : MigState) (w lc : String)
    (link : Option String) :
    (get_or_create_word (get_or_create_word st w lc link).2 w lc link).1
        = (get_or_create_word st w lc link).1
    ∧ (get_or_create_word (get_or_create_word st w lc link).2 w lc link).2.words
        = (get_or_create_word st w lc link).2.words
    ∧ (get_or_create_word (get_or_create_word st w lc link).2 w lc link).2.nextId
        = (get_or_create_word st w lc link).2.nextId := by
  cases hfind : st.words.find? (fun r =>
      (r.word == w) && (r.language_code == lc) && sqlNullEq r.webonary_link link) with
  | some r =>
      simp [get_or_create_word, hfind]
  | none =>
      have hrow : (fun r : WordRow =>
          (r.word == w) && (r.language_code == lc) && sqlNullEq r.webonary_link link)
            ⟨st.nextId, w, pyLower w, lc, link⟩ = true := by
        simp [sqlNullEq_refl]
      simp only [get_or_create_word, hfind]
      rw [List.find?_append, hfind]
      simp [List.find?_cons, hrow, sqlNullEq_refl]

/-- C4.  An invalid `match` value is rejected with the `ValueError` of
`_build_word_condition` uniformly in the database state — the error is
computed before any storage access, so the result is the same constant
error for every database; conversely every valid `match` value always
produces an `ok` result (an empty result list is a result, never an
error). -/
theorem c4_invalid_match_rejected (m source_lang word : String)
    (target_lang : Option String) (limit : Nat) (direction : String) :
    (m ≠ "exact" ∧ m ≠ "prefix" ∧ m ≠ "contains" →
      ∀ db : DB, query_translations db source_lang word target_lang m limit direction
        = Except.error ("Invalid match type: " ++ m
            ++ ". Must be \x27exact\x27, \x27prefix\x27, or \x27contains\x27"))
    ∧ ((m = "exact" ∨ m = "prefix" ∨ m = "contains") →
      ∀ db : DB, ∃ rows : List ResultRow,
        query_translations db source_lang word target_lang m limit direction
          = Except.ok rows) := by
  constructor
  · rintro ⟨h1, h2, h3⟩ db
    simp [query_translations, build_word_condition, h1, h2, h3]
  · rintro (h | h | h) db <;>
      simp [query_translations, build_word_condition, h]

/-- Witness for C4: a concrete invalid match value is rejected with the
invalid-match error on a concrete database, and a valid match value on an
empty database returns an `ok` result. -/
theorem c4_witness :
    query_translations ⟨[⟨1, "ab", "ab", "en", none⟩], []⟩ "en" "hello" none "fuzzy" 10 "forward"
      = Except.error ("Invalid match type: " ++ "fuzzy"
          ++ ". Must be \x27exact\x27, \x27prefix\x27, or \x27contains\x27")
    ∧ ∃ rows : List ResultRow,
        query_translations ⟨[], []⟩ "en" "hello" none "exact" 10 "forward" = Except.ok rows :=
  ⟨(c4_invalid_match_rejected "fuzzy" "en" "hello" none 10 "forward").1
      (by refine ⟨?_, ?_, ?_⟩ <;> decide) ⟨[⟨1, "ab", "ab", "en", none⟩], []⟩,
   (c4_invalid_match_rejected "exact" "en" "hello" none 10 "forward").2
      (Or.inl rfl) ⟨[], []⟩⟩

/-- C2.  For a stored edge `A → B` with `A` English/French and `B` an
African-language word (well-formed normalization), the forward exact query
`(source_lang = A.language, word = A.surface, target_lang = B.language)`
returns a record with `target_word = B.surface` and B's external link
(`webonary_link = B.webonary_link`), provided the limit does not truncate
the match set. -/
theorem c2_forward_edge_returned (db : DB) (A B : WordRow) (e : EdgeRow)
    (hA : A ∈ db.words) (hB : B ∈ db.words) (he : e ∈ db.translations)
    (hsrc : e.source_word_id = A.id) (htgt : e.target_word_id = B.id)
    (hAlang : A.language_code = "en" ∨ A.language_code = "fr")
    (hBlang : B.language_code ≠ "en" ∧ B.language_code ≠ "fr")
    (hnormA : A.word_normalized = pyLower A.word) (limit : Nat)
    (hlimit : (forwardRows db A.language_code
        (evalWordCond ⟨false, pyLower A.word⟩) (some B.language_code)).length ≤ limit) :
    ∃ rows,
      query_translations db A.language_code A.word (some B.language_code)
          "exact" limit "forward" = Except.ok rows
      ∧ ({ source_word := A.word, source_language := A.language_code
         , target_word := B.word, target_language := B.language_code
         , webonary_link := B.webonary_link } : ResultRow) ∈ rows := by
  refine ⟨(sortRows (forwardRows db A.language_code
      (evalWordCond ⟨false, pyLower A.word⟩) (some B.language_code))).take limit, rfl, ?_⟩
  have hperm := List.perm_insertionSort rowLe (forwardRows db A.language_code
      (evalWordCond ⟨false, pyLower A.word⟩) (some B.language_code))
  rw [List.take_of_length_le (by rw [sortRows, hperm.length_eq]; exact hlimit)]
  apply (hperm.mem_iff).2
  apply List.mem_flatMap.2
  refine ⟨A, hA, ?_⟩
  apply List.mem_flatMap.2
  refine ⟨e, he, ?_⟩
  apply List.mem_filterMap.2
  refine ⟨B, hB, ?_⟩
  have hcond : ((A.id == e.source_word_id) && (B.id == e.target_word_id)
      && (A.language_code == A.language_code)
      && evalWordCond ⟨false, pyLower A.word⟩ A.word_normalized
      && targetOkB (some B.language_code) B) = true := by
    simp [hsrc, htgt, evalWordCond, hnormA, targetOkB_self rfl]
  rw [if_pos hcond]

/-- Witness for C2 at a concrete database holding the edge
`(en, abandon) → (nnh, nye, link L1)`. -/
theorem c2_witness :
    ∃ rows,
      query_translations
          ⟨[⟨1, "abandon", "abandon", "en", none⟩, ⟨2, "nye", "nye", "nnh", some "L1"⟩],
           [⟨1, 2⟩]⟩
          "en" "abandon" (some "nnh") "exact" 10 "forward" = Except.ok rows
      ∧ ({ source_word := "abandon", source_language := "en"
         , target_word := "nye", target_language := "nnh"
         , webonary_link := some "L1" } : ResultRow) ∈ rows :=
  c2_forward_edge_returned
    ⟨[⟨1, "abandon", "abandon", "en", none⟩, ⟨2, "nye", "nye", "nnh", some "L1"⟩], [⟨1, 2⟩]⟩
    ⟨1, "abandon", "abandon", "en", none⟩ ⟨2, "nye", "nye", "nnh", some "L1"⟩ ⟨1, 2⟩
    (by decide) (by decide) (by decide) rfl rfl (Or.inl rfl) (by decide) (by decide)
    10 (by decide)

/-- C1.  For the same kind of stored edge `A → B`, the reverse exact query
rooted at the African-language word
`(source_lang = B.language, word = B.surface, target_lang = A.language)`
returns a record with `target_word = A.surface` whose `webonary_link` is
still B's external link: the link is surfaced from the `source` role of the
reverse join, i.e. from the African-language endpoint. -/
theorem c1_reverse_link_attribution (db : DB) (A B : WordRow) (e : EdgeRow)
    (hA : A ∈ db.words) (hB : B ∈ db.words) (he : e ∈ db.translations)
    (hsrc : e.source_word_id = A.id) (htgt : e.target_word_id = B.id)
    (hAlang : A.language_code = "en" ∨ A.language_code = "fr")
    (hBlang : B.language_code ≠ "en" ∧ B.language_code ≠ "fr")
    (hnormB : B.word_normalized = pyLower B.word) (limit : Nat)
    (hlimit : (reverseRows db B.language_code
        (evalWordCond ⟨false, pyLower B.word⟩) (some A.language_code)).length ≤ limit) :
    ∃ rows,
      query_translations db B.language_code B.word (some A.language_code)
          "exact" limit "reverse" = Except.ok rows
      ∧ ({ source_word := B.word, source_language := B.language_code
         , target_word := A.word, target_language := A.language_code
         , webonary_link := B.webonary_link } : ResultRow) ∈ rows := by
  refine ⟨(sortRows (reverseRows db B.language_code
      (evalWordCond ⟨false, pyLower B.word⟩) (some A.language_code))).take limit, rfl, ?_⟩
  have hperm := List.perm_insertionSort rowLe (reverseRows db B.language_code
      (evalWordCond ⟨false, pyLower B.word⟩) (some A.language_code))
  rw [List.take_of_length_le (by rw [sortRows, hperm.length_eq]; exact hlimit)]
  apply (hperm.mem_iff).2
  apply List.mem_flatMap.2
  refine ⟨B, hB, ?_⟩
  apply List.mem_flatMap.2
  refine ⟨e, he, ?_⟩
  apply List.mem_filterMap.2
  refine ⟨A, hA, ?_⟩
  have hcond : ((B.id == e.target_word_id) && (A.id == e.source_word_id)
      && (B.language_code == B.language_code)
      && evalWordCond ⟨false, pyLower B.word⟩ B.word_normalized
      && targetOkB (some A.language_code) A) = true := by
    simp [hsrc, htgt, evalWordCond, hnormB, targetOkB_self rfl]
  rw [if_pos hcond]

/-- Witness for C1 at the same concrete database: the reverse query from
`(nnh, nye)` to `en` returns `abandon` carrying B's link `L1`. -/
theorem c1_witness :
    ∃ rows,
      query_translations
          ⟨[⟨1, "abandon", "abandon", "en", none⟩, ⟨2, "nye", "nye", "nnh", some "L1"⟩],
           [⟨1, 2⟩]⟩
          "nnh" "nye" (some "en") "exact" 10 "reverse" = Except.ok rows
      ∧ ({ source_word := "nye", source_language := "nnh"
         , target_word := "abandon", target_language := "en"
         , webonary_link := some "L1" } : ResultRow) ∈ rows :=
  c1_reverse_link_attribution
    ⟨[⟨1, "abandon", "abandon", "en", none⟩, ⟨2, "nye", "nye", "nnh", some "L1"⟩], [⟨1, 2⟩]⟩
    ⟨1, "abandon", "abandon", "en", none⟩ ⟨2, "nye", "nye", "nnh", some "L1"⟩ ⟨1, 2⟩
    (by decide) (by decide) (by decide) rfl rfl (Or.inl rfl) (by decide) (by decide)
    10 (by decide)

/-- C8.  Every successful query result (either direction) is the
`limit`-prefix of a sorted permutation of the full match set: the rows are
ordered ascending by the target-role surface form under the code-point
lexicographic order `rowLe` (SQLite BINARY collation), and the limit cap is
applied after sorting; the returned list itself is sorted as well. -/
theorem c8_ordered_before_limit (db : DB) (source_lang word : String)
    (target_lang : Option String) (m : String) (limit : Nat) (direction : String)
    (res : List ResultRow)
    (h : query_translations db source_lang word target_lang m limit direction
        = Except.ok res) :
    ∃ cond full,
      build_word_condition (pyLower word) m = Except.ok cond
      ∧ full.Perm (if direction = "forward"
          then forwardRows db source_lang (evalWordCond cond) target_lang
          else reverseRows db source_lang (evalWordCond cond) target_lang)
      ∧ List.Sorted rowLe full
      ∧ res = full.take limit
      ∧ List.Sorted rowLe res := by
  unfold query_translations at h
  dsimp only at h
  cases hbc : build_word_condition (pyLower word) m with
  | error e =>
      rw [hbc] at h
      simp at h
  | ok cond =>
      rw [hbc] at h
      dsimp only at h
      simp only [Except.ok.injEq] at h
      refine ⟨cond, sortRows (if direction = "forward"
          then forwardRows db source_lang (evalWordCond cond) target_lang
          else reverseRows db source_lang (evalWordCond cond) target_lang),
        rfl, List.perm_insertionSort rowLe _, List.sorted_insertionSort rowLe _,
        h.symm, ?_⟩
      rw [← h]
      exact List.Pairwise.sublist (List.take_sublist _ _) (List.sorted_insertionSort rowLe _)

/-- Witness for C8: a concrete forward query whose two matches are stored
out of order is returned sorted by target surface form. -/
theorem c8_witness :
    ∃ cond full,
      build_word_condition (pyLower "abandon") "exact" = Except.ok cond
      ∧ full.Perm (if "forward" = "forward"
          then forwardRows
              ⟨[⟨1, "abandon", "abandon", "en", none⟩, ⟨2, "zz", "zz", "nnh", some "L2"⟩,
                ⟨3, "aa", "aa", "nnh", some "L3"⟩],
               [⟨1, 2⟩, ⟨1, 3⟩]⟩
              "en" (evalWordCond cond) (some "nnh")
          else reverseRows
              ⟨[⟨1, "abandon", "abandon", "en", none⟩, ⟨2, "zz", "zz", "nnh", some "L2"⟩,
                ⟨3, "aa", "aa", "nnh", some "L3"⟩],
               [⟨1, 2⟩, ⟨1, 3⟩]⟩
              "en" (evalWordCond cond) (some "nnh"))
      ∧ List.Sorted rowLe full
      ∧ [({ source_word := "abandon", source_language := "en", target_word := "aa"
          , target_language := "nnh", webonary_link := some "L3" } : ResultRow),
         { source_word := "abandon", source_language := "en", target_word := "zz"
          , target_language := "nnh", webonary_link := some "L2" }] = full.take 10
      ∧ List.Sorted rowLe
          [({ source_word := "abandon", source_language := "en", target_word := "aa"
            , target_language := "nnh", webonary_link := some "L3" } : ResultRow),
           { source_word := "abandon", source_language := "en", target_word := "zz"
            , target_language := "nnh", webonary_link := some "L2" }] :=
  c8_ordered_before_limit
    ⟨[⟨1, "abandon", "abandon", "en", none⟩, ⟨2, "zz", "zz", "nnh", some "L2"⟩,
      ⟨3, "aa", "aa", "nnh", some "L3"⟩],
     [⟨1, 2⟩, ⟨1, 3⟩]⟩
    "en" "abandon" (some "nnh") "exact" 10 "forward" _ rfl

/-- C3 counterexample.  The engine does not escape SQL `LIKE`
metacharacters: with stored normalized word `ab`, the prefix query for
`P = "a_"` returns the edge even though `ab` does not start with the
literal string `a_` (the `_` is treated as a single-character wildcard), so
the claimed exactness for arbitrary `P` fails. -/
theorem c3_counterexample :
    query_translations
        ⟨[⟨1, "ab", "ab", "en", none⟩, ⟨2, "x", "x", "nnh", some "L"⟩], [⟨1, 2⟩]⟩
        "en" "a_" none "prefix" 10 "forward"
      = Except.ok [{ source_word := "ab", source_language := "en", target_word := "x"
                   , target_language := "nnh", webonary_link := some "L" }]
    ∧ startsWithL (pyLower "a_").data "ab".data = false :=
  ⟨rfl, by decide⟩

/-- C3 as amended.  For every query string `P` that contains no `LIKE`
metacharacter (`%` or `_`), over a well-formed database (normalized forms
are the lowercased surface forms), `match=prefix` returns exactly the
(ordered, capped) rows whose source-role normalized form starts with
`lowercase(P)`, and `match=contains` exactly those containing it as a
substring. -/
theorem c3_amended_wildcard_free (db : DB) (source_lang P : String)
    (target_lang : Option String) (limit : Nat) (direction : String)
    (wf : ∀ r ∈ db.words, r.word_normalized = pyLower r.word)
    (hP : ∀ c ∈ P.data, c ≠ '%' ∧ c ≠ '_') :
    query_translations db source_lang P target_lang "prefix" limit direction
      = Except.ok ((sortRows (if direction = "forward"
          then forwardRows db source_lang
              (fun s => startsWithL (pyLower P).data s.data) target_lang
          else reverseRows db source_lang
              (fun s => startsWithL (pyLower P).data s.data) target_lang)).take limit)
    ∧ query_translations db source_lang P target_lang "contains" limit direction
      = Except.ok ((sortRows (if direction = "forward"
          then forwardRows db source_lang
              (fun s => substrOf (pyLower P).data s.data) target_lang
          else reverseRows db source_lang
              (fun s => substrOf (pyLower P).data s.data) target_lang)).take limit) := by
  have hwild : ∀ c ∈ (pyLower P).data, lowerChar c = c ∧ c ≠ '%' ∧ c ≠ '_' := by
    intro c hc
    refine ⟨pyLower_clean P c hc, ?_, ?_⟩
    · rw [pyLower_data] at hc
      rcases List.mem_map.1 hc with ⟨x, hx, hxc⟩
      rw [← hxc]
      exact lowerChar_ne_pct (hP x hx).1
    · rw [pyLower_data] at hc
      rcases List.mem_map.1 hc with ⟨x, hx, hxc⟩
      rw [← hxc]
      exact lowerChar_ne_uscore (hP x hx).2
  have hpre : ∀ r ∈ db.words, evalWordCond ⟨true, pyLower P ++ "%"⟩ r.word_normalized
      = startsWithL (pyLower P).data r.word_normalized.data := by
    intro r hr
    rw [wf r hr]
    show sqliteLike (pyLower P ++ "%") (pyLower r.word)
        = startsWithL (pyLower P).data (pyLower r.word).data
    unfold sqliteLike
    rw [String.data_append]
    exact likeChars_append_pct _ _ hwild (pyLower_clean r.word)
  have hsub : ∀ r ∈ db.words, evalWordCond ⟨true, "%" ++ pyLower P ++ "%"⟩ r.word_normalized
      = substrOf (pyLower P).data r.word_normalized.data := by
    intro r hr
    rw [wf r hr]
    show sqliteLike ("%" ++ pyLower P ++ "%") (pyLower r.word)
        = substrOf (pyLower P).data (pyLower r.word).data
    unfold sqliteLike
    have hdata : ("%" ++ pyLower P ++ "%").data = '%' :: ((pyLower P).data ++ ['%']) := by
      rw [String.data_append, String.data_append]
      simp
    rw [hdata]
    exact likeChars_pct_append_pct _ _ hwild (pyLower_clean r.word)
  constructor
  · have e1 : query_translations db source_lang P target_lang "prefix" limit direction
        = Except.ok ((sortRows (if direction = "forward"
            then forwardRows db source_lang
                (evalWordCond ⟨true, pyLower P ++ "%"⟩) target_lang
            else reverseRows db source_lang
                (evalWordCond ⟨true, pyLower P ++ "%"⟩) target_lang)).take limit) := rfl
    rw [e1,
      forwardRows_congr _ (fun s => startsWithL (pyLower P).data s.data) hpre,
      reverseRows_congr _ (fun s => startsWithL (pyLower P).data s.data) hpre]
  · have e2 : query_translations db source_lang P target_lang "contains" limit direction
        = Except.ok ((sortRows (if direction = "forward"
            then forwardRows db source_lang
                (evalWordCond ⟨true, "%" ++ pyLower P ++ "%"⟩) target_lang
            else reverseRows db source_lang
                (evalWordCond ⟨true, "%" ++ pyLower P ++ "%"⟩) target_lang)).take limit) := rfl
    rw [e2,
      forwardRows_congr _ (fun s => substrOf (pyLower P).data s.data) hsub,
      reverseRows_congr _ (fun s => substrOf (pyLower P).data s.data) hsub]

/-- Witness for the amended C3 on a concrete database: with the
wildcard-free query string `ab`, prefix and contains queries return exactly
the startsWith- and substring-filtered row sets. -/
theorem c3_witness :
    query_translations
        ⟨[⟨1, "ab", "ab", "en", none⟩, ⟨2, "x", "x", "nnh", some "L"⟩], [⟨1, 2⟩]⟩
        "en" "ab" none "prefix" 10 "forward"
      = Except.ok ((sortRows (if "forward" = "forward"
          then forwardRows
              ⟨[⟨1, "ab", "ab", "en", none⟩, ⟨2, "x", "x", "nnh", some "L"⟩], [⟨1, 2⟩]⟩
              "en" (fun s => startsWithL (pyLower "ab").data s.data) none
          else reverseRows
              ⟨[⟨1, "ab", "ab", "en", none⟩, ⟨2, "x", "x", "nnh", some "L"⟩], [⟨1, 2⟩]⟩
              "en" (fun s => startsWithL (pyLower "ab").data s.data) none)).take 10)
    ∧ query_translations
        ⟨[⟨1, "ab", "ab", "en", none⟩, ⟨2, "x", "x", "nnh", some "L"⟩], [⟨1, 2⟩]⟩
        "en" "ab" none "contains" 10 "forward"
      = Except.ok ((sortRows (if "forward" = "forward"
          then forwardRows
              ⟨[⟨1, "ab", "ab", "en", none⟩, ⟨2, "x", "x", "nnh", some "L"⟩], [⟨1, 2⟩]⟩
              "en" (fun s => substrOf (pyLower "ab").data s.data) none
          else reverseRows
              ⟨[⟨1, "ab", "ab", "en", none⟩, ⟨2, "x", "x", "nnh", some "L"⟩], [⟨1, 2⟩]⟩
              "en" (fun s => substrOf (pyLower "ab").data s.data) none)).take 10) :=
  c3_amended_wildcard_free
    ⟨[⟨1, "ab", "ab", "en", none⟩, ⟨2, "x", "x", "nnh", some "L"⟩], [⟨1, 2⟩]⟩
    "en" "ab" none 10 "forward" (by decide) (by decide)

/-- C9 counterexample.  The response does not echo the supplied `limit`:
two successful requests that differ only in `limit` produce identical
responses (the `QueryInfo` model has no limit field), so no part of the
response reflects the caller's limit. -/
theorem c9_counterexample :
    translate ⟨[], []⟩ ["en", "nnh"] "en" "hello" none "exact" 1
      = translate ⟨[], []⟩ ["en", "nnh"] "en" "hello" none "exact" 2
    ∧ (1 : Nat) ≠ 2 :=
  ⟨rfl, by decide⟩

/-- C9 as amended.  Every successful translate response echoes the supplied
`source`, `target`, `word` and `match` (but not `limit`), carries the
ordered, capped result list produced by the repository query under the
derived direction, and a `count` equal to the length of that list. -/
theorem c9_amended_response_shape (db : DB) (valid_languages : List String)
    (source word : String) (target : Option String) (m : String) (limit : Nat)
    (resp : TranslateResponse)
    (h : translate db valid_languages source word target m limit = Except.ok resp) :
    resp.query = { source := source, target := target, word := word, matchType := m }
    ∧ resp.count = resp.results.length
    ∧ query_translations db source word target m limit
        (if source ∉ ["en", "fr"] then "reverse" else "forward")
      = Except.ok resp.results := by
  unfold translate at h
  split_ifs at h with hv1 hv2 hdir
  · rw [if_neg (not_not_intro hdir)]
    dsimp only at h
    cases hq : query_translations db source word target m limit "forward" with
    | error e =>
        rw [hq] at h
        simp at h
    | ok results =>
        rw [hq] at h
        simp only [Except.ok.injEq] at h
        rw [← h]
        exact ⟨rfl, rfl, rfl⟩
  · rw [if_pos hdir]
    dsimp only at h
    cases hq : query_translations db source word target m limit "reverse" with
    | error e =>
        rw [hq] at h
        simp at h
    | ok results =>
        rw [hq] at h
        simp only [Except.ok.injEq] at h
        rw [← h]
        exact ⟨rfl, rfl, rfl⟩

/-- Witness for the amended C9 on a concrete empty database and a valid
language list. -/
theorem c9_witness :
    ({ query := { source := "en", target := none, word := "hello", matchType := "exact" }
     , results := [], count := 0 } : TranslateResponse).query
        = { source := "en", target := none, word := "hello", matchType := "exact" }
    ∧ ({ query := { source := "en", target := none, word := "hello", matchType := "exact" }
       , results := [], count := 0 } : TranslateResponse).count
        = ({ query := { source := "en", target := none, word := "hello", matchType := "exact" }
           , results := [], count := 0 } : TranslateResponse).results.length
    ∧ query_translations ⟨[], []⟩ "en" "hello" none "exact" 10
        (if "en" ∉ ["en", "fr"] then "reverse" else "forward")
      = Except.ok ({ query := { source := "en", target := none, word := "hello", matchType := "exact" }
                   , results := [], count := 0 } : TranslateResponse).results :=
  c9_amended_response_shape ⟨[], []⟩ ["en"] "en" "hello" none "exact" 10
    { query := { source := "en", target := none, word := "hello", matchType := "exact" }
    , results := [], count := 0 } rfl

end Vernala
